import Mathlib

/-!
Alert queue of the dashboard (`components/alert/provider.js`).

A shallow embedding of the React `Provider` of the alert queue: its three
`useState` cells, `updateAlertsQueue`, `removeAlert` and `addAlert`.

JavaScript objects have an identity, and `new Set([...])` removes duplicates
by identity, not by content.  A stored alert is therefore an `AlertObj`: an
identity `ref` together with its `message` and `severity`.  The objects are
never mutated by the provider, so two objects are the same object exactly
when the records are equal.  A newly created object (`{ message, severity }`
in `addAlert`, every element produced by `JSON.parse(JSON.stringify(..))` in
`removeAlert`) receives an identity carried by no object of the current
state.

One call of an action is one transition on the state that the last render
saw: the `useCallback` dependency lists name every cell a callback reads, so
a callback always sees the state of the latest render, and the `set...`
calls made during one call are committed together.
-/

namespace AlertProvider

/-- The argument of `addAlert`: the error queue view passes `message`,
`severity` and `errorId`. -/
structure AlertItem where
  message : String
  severity : String
  errorId : Option Nat
deriving DecidableEq

/-- The content of a stored alert, `{ message, severity }`. -/
structure Alert where
  message : String
  severity : String
deriving DecidableEq

/-- A stored alert object: identity and content. -/
structure AlertObj where
  ref : Nat
  message : String
  severity : String
deriving DecidableEq

/-- The content of an object, forgetting its identity. -/
def AlertObj.content (o : AlertObj) : Alert := ⟨o.message, o.severity⟩

/-- The three `useState` cells of `Provider`. -/
structure State where
  activeAlerts : List AlertObj
  inactiveAlerts : List AlertObj
  allAlerts : List AlertObj
deriving DecidableEq

/-- The contents of a list of objects, in order. -/
def contents (xs : List AlertObj) : List Alert := xs.map AlertObj.content

/-- The initial values handed to the three `useState` calls. -/
def initialState : State where
  activeAlerts := [⟨0, "alert 1", "error"⟩, ⟨1, "alert 2", "warning"⟩]
  inactiveAlerts := []
  allAlerts := []

/-- An identity carried by no object of the state, nor is any larger one. -/
def State.freshRef (s : State) : Nat :=
  ((s.activeAlerts ++ s.inactiveAlerts ++ s.allAlerts).map (fun o => o.ref + 1)).foldr max 0

/-- The array `JSON.parse(JSON.stringify(xs))`: a new object for every element,
with the same `message` and `severity`; the new identities start at `r`. -/
def jsonCopy : Nat → List AlertObj → List AlertObj
  | _, [] => []
  | r, o :: os => ⟨r, o.message, o.severity⟩ :: jsonCopy (r + 1) os

/-- The start position `Array.prototype.splice` computes from its first
argument: a negative index counts from the end, and the result is clamped to
`0 .. len`. -/
def spliceStart (len : Nat) (index : Int) : Nat :=
  if index < 0 then (max ((len : Int) + index) 0).toNat else min index.toNat len

/-- The call `xs.splice(index, 1)`: the removed elements and what is left of
the array. -/
def splice1 {α : Type} (xs : List α) (index : Int) : List α × List α :=
  let start := spliceStart xs.length index
  let deleteCount := min 1 (xs.length - start)
  ((xs.drop start).take deleteCount, xs.take start ++ xs.drop (start + deleteCount))

/-- The array `[...new Set(xs)]`: elements in order of first occurrence, an
object that is already in the set is not inserted again. -/
def setSpread (xs : List AlertObj) : List AlertObj :=
  xs.foldl (fun acc x => if x ∈ acc then acc else acc ++ [x]) []

/-- The function `updateAlertsQueue`: the values it passes to
`setInactiveAlerts` and to `setAllAlerts`.  Both are computed from the cells
of the render the callback was created in. -/
def updateAlertsQueue (s : State) (newInactiveAlert : List AlertObj) :
    List AlertObj × List AlertObj :=
  (setSpread (s.inactiveAlerts ++ newInactiveAlert),
   setSpread (s.inactiveAlerts ++ s.activeAlerts))

/-- The function `removeAlert`. -/
def removeAlert (s : State) (index : Int) : State :=
  let alertsCopy := jsonCopy s.freshRef s.activeAlerts
  let spliced := splice1 alertsCopy index
  let newInactiveAlert := spliced.1
  let queues := updateAlertsQueue s newInactiveAlert
  { activeAlerts := spliced.2, inactiveAlerts := queues.1, allAlerts := queues.2 }

/-- The values the accumulator of the `reduce` in `addAlert` takes: its
initial value `[]`, or the boolean a callback returned. -/
inductive ReduceAcc where
  | emptyArray : ReduceAcc
  | bool : Bool → ReduceAcc
deriving DecidableEq

/-- JavaScript truthiness of the accumulator: `[]` is truthy. -/
def ReduceAcc.truthy : ReduceAcc → Bool
  | ReduceAcc.emptyArray => true
  | ReduceAcc.bool b => b

/-- The value `newAlert` of `addAlert`:
`allAlerts.reduce((_, alert) => alert?.message !== message, [])`. -/
def newAlert (allAlerts : List AlertObj) (message : String) : ReduceAcc :=
  allAlerts.foldl (fun _ alert => ReduceAcc.bool (alert.message != message)) ReduceAcc.emptyArray

/-- The function `addAlert`: only `message` and `severity` of the argument are
read. -/
def addAlert (s : State) (item : AlertItem) : State :=
  if (newAlert s.allAlerts item.message).truthy then
    { s with activeAlerts := s.activeAlerts ++ [⟨s.freshRef, item.message, item.severity⟩] }
  else s

/-- A call of one of the two actions the provider exposes. -/
inductive Call where
  | add : AlertItem → Call
  | remove : Int → Call

/-- The state after one call. -/
def step (s : State) : Call → State
  | Call.add item => addAlert s item
  | Call.remove index => removeAlert s index

/-- The state after a sequence of calls, starting from the initial state. -/
def run (calls : List Call) : State := calls.foldl step initialState

/-- The states the provider can be in. -/
def Reachable (s : State) : Prop := ∃ calls : List Call, run calls = s

/-- Modelled from the spec: the constants `ALERT_SEVERITY.ERROR` and
`ALERT_SEVERITY.WARNING` of `dashboard/constants`, which is not among the
sources; the spec lists the severities error, warning, info, success. -/
def ALERT_SEVERITY_ERROR : String := "error"

/-- Modelled from the spec: see `ALERT_SEVERITY_ERROR`. -/
def ALERT_SEVERITY_WARNING : String := "warning"

/-- The constant `TOAST_1` of the test file. -/
def TOAST_1 : AlertItem := ⟨"one", ALERT_SEVERITY_ERROR, some 1⟩

/-- The constant `TOAST_2` of the test file. -/
def TOAST_2 : AlertItem := ⟨"two", ALERT_SEVERITY_ERROR, some 2⟩

/-- The constant `TOAST_3` of the test file. -/
def TOAST_3 : AlertItem := ⟨"three", ALERT_SEVERITY_WARNING, some 3⟩

/-- The state of the test scenario: `TOAST_1` and `TOAST_2` active, nothing
inactive. -/
def twoToasts : State where
  activeAlerts := [⟨0, "one", "error"⟩, ⟨1, "two", "error"⟩]
  inactiveAlerts := []
  allAlerts := []

/-- The empty queue. -/
def emptyQueue : State where
  activeAlerts := []
  inactiveAlerts := []
  allAlerts := []

/-- The claim that `addAlert` looks at the last element of `allAlerts` only,
in its own words: the new `activeAlerts` is the old one followed by
`{ message, severity }` when `allAlerts` is empty or its last element has
another message, and the old one otherwise. -/
def activeAlertsByLast (s : State) (message severity : String) : List AlertObj :=
  match s.allAlerts.getLast? with
  | none => s.activeAlerts ++ [⟨s.freshRef, message, severity⟩]
  | some last =>
    if last.message = message then s.activeAlerts
    else s.activeAlerts ++ [⟨s.freshRef, message, severity⟩]

/-- Every content of `allAlerts` is a content of `activeAlerts` or of
`inactiveAlerts`. -/
def AllCovered (s : State) : Prop :=
  ∀ c ∈ contents s.allAlerts, c ∈ contents s.activeAlerts ∨ c ∈ contents s.inactiveAlerts

/-! ## Lemmas on the building blocks -/

theorem mem_foldl_insert (xs acc : List AlertObj) (x : AlertObj) :
    x ∈ xs.foldl (fun acc x => if x ∈ acc then acc else acc ++ [x]) acc ↔ x ∈ acc ∨ x ∈ xs := by
  induction xs generalizing acc with
  | nil => simp
  | cons y ys ih =>
    rw [List.foldl_cons, ih, List.mem_cons]
    by_cases hy : y ∈ acc
    · rw [if_pos hy]
      constructor
      · rintro (h | h)
        · exact Or.inl h
        · exact Or.inr (Or.inr h)
      · rintro (h | h | h)
        · exact Or.inl h
        · exact Or.inl (h ▸ hy)
        · exact Or.inr h
    · rw [if_neg hy, List.mem_append, List.mem_singleton]
      tauto

/-- Spreading a set built from an array keeps exactly the objects of the array. -/
theorem mem_setSpread (xs : List AlertObj) (x : AlertObj) : x ∈ setSpread xs ↔ x ∈ xs := by
  unfold setSpread
  rw [mem_foldl_insert]
  simp

/-- So it keeps exactly the contents of the array. -/
theorem mem_contents_setSpread (xs : List AlertObj) (c : Alert) :
    c ∈ contents (setSpread xs) ↔ c ∈ contents xs := by
  simp only [contents, List.mem_map, mem_setSpread]

theorem contents_append (xs ys : List AlertObj) :
    contents (xs ++ ys) = contents xs ++ contents ys := by
  simp [contents]

/-- The JSON round trip changes identities only. -/
theorem contents_jsonCopy (r : Nat) (xs : List AlertObj) :
    contents (jsonCopy r xs) = contents xs := by
  induction xs generalizing r with
  | nil => rfl
  | cons o os ih =>
    have h := ih (r + 1)
    simp only [contents] at h
    simp [jsonCopy, contents, AlertObj.content, h]

theorem length_jsonCopy (r : Nat) (xs : List AlertObj) :
    (jsonCopy r xs).length = xs.length := by
  induction xs generalizing r with
  | nil => rfl
  | cons o os ih => simp [jsonCopy, ih]

/-- Every copy carries an identity from `r` on. -/
theorem ref_jsonCopy (r : Nat) (xs : List AlertObj) :
    ∀ o ∈ jsonCopy r xs, r ≤ o.ref := by
  induction xs generalizing r with
  | nil => simp [jsonCopy]
  | cons x xs ih =>
    intro o ho
    simp only [jsonCopy, List.mem_cons] at ho
    rcases ho with rfl | ho
    · exact Nat.le_refl _
    · exact Nat.le_of_succ_le (ih (r + 1) o ho)

theorem lt_foldr_max (ns : List Nat) : ∀ n ∈ ns, n ≤ ns.foldr max 0 := by
  induction ns with
  | nil => simp
  | cons m ms ih =>
    intro n hn
    simp only [List.mem_cons] at hn
    simp only [List.foldr_cons]
    rcases hn with rfl | hn
    · exact Nat.le_max_left _ _
    · exact Nat.le_trans (ih n hn) (Nat.le_max_right _ _)

/-- The identity `freshRef` is above the identity of every object of the state. -/
theorem ref_lt_freshRef (s : State) :
    ∀ o ∈ s.activeAlerts ++ s.inactiveAlerts ++ s.allAlerts, o.ref < s.freshRef := by
  intro o ho
  have h : o.ref + 1 ∈ (s.activeAlerts ++ s.inactiveAlerts ++ s.allAlerts).map (fun o => o.ref + 1) :=
    List.mem_map_of_mem _ ho
  exact lt_foldr_max _ _ h

/-- The start position of `splice` for an index inside the array. -/
theorem spliceStart_of_lt (len i : Nat) (h : i < len) : spliceStart len (i : Int) = i := by
  unfold spliceStart
  have h0 : ¬ ((i : Int) < 0) := by omega
  rw [if_neg h0]
  simp only [Int.toNat_ofNat]
  omega

/-- For an index inside the array `splice(i, 1)` removes the element at `i`. -/
theorem splice1_of_lt {α : Type} (xs : List α) (i : Nat) (h : i < xs.length) :
    splice1 xs (i : Int) = ((xs.drop i).take 1, xs.eraseIdx i) := by
  unfold splice1
  simp only [spliceStart_of_lt _ _ h]
  have h1 : min 1 (xs.length - i) = 1 := by omega
  rw [h1, List.eraseIdx_eq_take_drop_succ]

theorem contents_take_one_drop (xs : List AlertObj) (i : Nat) (a : AlertObj)
    (h : xs[i]? = some a) : contents ((xs.drop i).take 1) = [a.content] := by
  obtain ⟨hi, ha⟩ := List.getElem?_eq_some.mp h
  rw [List.take_one_drop_eq_of_lt_length hi]
  simp [contents, ha]

/-- The accumulator of the `reduce` after a non-empty array is what the
callback returns for the last element. -/
theorem newAlert_append_singleton (xs : List AlertObj) (a : AlertObj) (m : String) :
    newAlert (xs ++ [a]) m = ReduceAcc.bool (a.message != m) := by
  simp [newAlert, List.foldl_append]

/-- When no member of `allAlerts` has the message, `newAlert` is truthy. -/
theorem newAlert_truthy_of_forall_ne (xs : List AlertObj) (m : String)
    (h : ∀ a ∈ xs, a.message ≠ m) : (newAlert xs m).truthy = true := by
  rcases List.eq_nil_or_concat xs with rfl | ⟨ys, a, rfl⟩
  · rfl
  · rw [List.concat_eq_append, newAlert_append_singleton]
    simp [ReduceAcc.truthy, h a (by simp)]

/-- Every sequence of calls leads to a reachable state. -/
theorem reachable_run (calls : List Call) : Reachable (run calls) := ⟨calls, rfl⟩

/-- Mapping to contents commutes with erasing a position. -/
theorem contents_eraseIdx (xs : List AlertObj) (i : Nat) :
    contents (xs.eraseIdx i) = (contents xs).eraseIdx i := by
  simp [contents, List.eraseIdx_eq_take_drop_succ]

/-- A member of a list is the element at position `i` or a member of the list
with position `i` erased. -/
theorem mem_iff_getElem_or_mem_eraseIdx {α : Type} (l : List α) (i : Nat) (x y : α)
    (h : l[i]? = some y) : x ∈ l ↔ x = y ∨ x ∈ l.eraseIdx i := by
  induction l generalizing i with
  | nil => simp at h
  | cons z zs ih =>
    cases i with
    | zero =>
      simp only [List.getElem?_cons_zero, Option.some.injEq] at h
      subst h
      simp
    | succ j =>
      simp only [List.getElem?_cons_succ] at h
      simp only [List.eraseIdx_cons_succ, List.mem_cons, ih j h]
      tauto

/-- For an index inside `activeAlerts`, the new `activeAlerts` of `removeAlert`
is the JSON copy with that position erased. -/
theorem removeAlert_activeAlerts_eq (s : State) (i : Nat) (h : i < s.activeAlerts.length) :
    (removeAlert s (i : Int)).activeAlerts = (jsonCopy s.freshRef s.activeAlerts).eraseIdx i := by
  have hc : i < (jsonCopy s.freshRef s.activeAlerts).length := by
    rw [length_jsonCopy]; exact h
  simp only [removeAlert, splice1_of_lt _ _ hc]

/-- For an index inside `activeAlerts`, where the object `a` is, the contents
of the new `inactiveAlerts` of `removeAlert` are the former ones and that of `a`. -/
theorem mem_contents_removeAlert_inactiveAlerts (s : State) (i : Nat) (a : AlertObj)
    (h : s.activeAlerts[i]? = some a) (c : Alert) :
    c ∈ contents (removeAlert s (i : Int)).inactiveAlerts
      ↔ c ∈ contents s.inactiveAlerts ∨ c = a.content := by
  obtain ⟨hi, _⟩ := List.getElem?_eq_some.mp h
  have hc : i < (jsonCopy s.freshRef s.activeAlerts).length := by
    rw [length_jsonCopy]; exact hi
  have hrem : contents ((jsonCopy s.freshRef s.activeAlerts).drop i |>.take 1) = [a.content] := by
    have e : ∀ xs : List AlertObj, contents ((xs.drop i).take 1) = ((contents xs).drop i).take 1 := by
      intro xs
      simp [contents, List.map_take, List.map_drop]
    rw [e, contents_jsonCopy, ← e]
    exact contents_take_one_drop _ _ _ h
  simp only [removeAlert, updateAlertsQueue, splice1_of_lt _ _ hc]
  rw [mem_contents_setSpread, contents_append, hrem, List.mem_append, List.mem_singleton]

/-- The new `allAlerts` of `removeAlert` holds the contents of the former
`inactiveAlerts` and `activeAlerts`, whatever the index. -/
theorem mem_contents_removeAlert_allAlerts (s : State) (index : Int) (c : Alert) :
    c ∈ contents (removeAlert s index).allAlerts
      ↔ c ∈ contents s.inactiveAlerts ∨ c ∈ contents s.activeAlerts := by
  simp only [removeAlert, updateAlertsQueue]
  rw [mem_contents_setSpread, contents_append, List.mem_append]

/-- When `newAlert` is truthy, `addAlert` appends a new object to `activeAlerts`
and leaves the other two cells alone. -/
theorem addAlert_of_truthy (s : State) (item : AlertItem)
    (h : (newAlert s.allAlerts item.message).truthy = true) :
    addAlert s item = { s with activeAlerts :=
      s.activeAlerts ++ [⟨s.freshRef, item.message, item.severity⟩] } := by
  simp [addAlert, h]

/-- The start position of `splice` never lies behind the end of the array. -/
theorem spliceStart_le (len : Nat) (index : Int) : spliceStart len index ≤ len := by
  unfold spliceStart
  split <;> omega

/-- At or behind the end of the array the start position is the end. -/
theorem spliceStart_of_length_le (len : Nat) (index : Int) (h : (len : Int) ≤ index) :
    spliceStart len index = len := by
  unfold spliceStart
  have h0 : ¬ (index < 0) := by omega
  rw [if_neg h0]
  omega

/-- A negative index counts from the end of the array, and not beyond its
first position. -/
theorem spliceStart_of_neg (len : Nat) (index : Int) (h : index < 0) :
    spliceStart len index = ((len : Int) + index).toNat := by
  unfold spliceStart
  rw [if_pos h]
  omega

/-- For every index `splice(index, 1)` removes the element at the start
position, if there is one. -/
theorem splice1_eq {α : Type} (xs : List α) (index : Int) :
    splice1 xs index
      = ((xs.drop (spliceStart xs.length index)).take 1,
         xs.eraseIdx (spliceStart xs.length index)) := by
  have hle := spliceStart_le xs.length index
  unfold splice1
  rcases Nat.lt_or_ge (spliceStart xs.length index) xs.length with hlt | hge
  · have h1 : min 1 (xs.length - spliceStart xs.length index) = 1 := by omega
    simp only [h1, List.eraseIdx_eq_take_drop_succ]
  · have h0 : min 1 (xs.length - spliceStart xs.length index) = 0 := by omega
    have hd : xs.drop (spliceStart xs.length index) = [] := List.drop_eq_nil_of_le hge
    simp only [h0, Nat.add_zero, hd, List.take_nil, List.take_zero, List.append_nil,
      List.eraseIdx_of_length_le hge, List.take_of_length_le hge]

/-- The one element at most that `take 1` after `drop n` keeps is the element
at position `n`. -/
theorem mem_take_one_drop {α : Type} (l : List α) (n : Nat) (x : α) :
    x ∈ (l.drop n).take 1 ↔ l[n]? = some x := by
  rcases Nat.lt_or_ge n l.length with hlt | hge
  · rw [List.take_one_drop_eq_of_lt_length hlt, List.mem_singleton,
      List.getElem?_eq_getElem hlt, Option.some.injEq]
    exact ⟨fun h => h.symm, fun h => h.symm⟩
  · rw [List.drop_eq_nil_of_le hge, List.getElem?_eq_none hge]
    simp

/-- For every index, the contents of the new `activeAlerts` of `removeAlert`
are the former ones with the start position of the `splice` erased. -/
theorem contents_removeAlert_activeAlerts (s : State) (index : Int) :
    contents (removeAlert s index).activeAlerts
      = (contents s.activeAlerts).eraseIdx (spliceStart s.activeAlerts.length index) := by
  simp only [removeAlert, splice1_eq, length_jsonCopy]
  rw [contents_eraseIdx, contents_jsonCopy]

/-- For every index, the new `inactiveAlerts` of `removeAlert` holds the former
contents and the content at the start position of the `splice`, if there is
one. -/
theorem mem_contents_removeAlert_inactiveAlerts_iff (s : State) (index : Int) (c : Alert) :
    c ∈ contents (removeAlert s index).inactiveAlerts
      ↔ c ∈ contents s.inactiveAlerts
        ∨ (contents s.activeAlerts)[spliceStart s.activeAlerts.length index]? = some c := by
  have e : ∀ (xs : List AlertObj) (n : Nat),
      contents ((xs.drop n).take 1) = ((contents xs).drop n).take 1 := by
    intro xs n
    simp [contents, List.map_take, List.map_drop]
  simp only [removeAlert, updateAlertsQueue, splice1_eq, length_jsonCopy]
  rw [mem_contents_setSpread, contents_append, List.mem_append, e, contents_jsonCopy,
    mem_take_one_drop]

/-- Every object of `inactiveAlerts` stays in it under `removeAlert`. -/
theorem mem_removeAlert_inactiveAlerts_of_mem (s : State) (index : Int) (o : AlertObj)
    (h : o ∈ s.inactiveAlerts) : o ∈ (removeAlert s index).inactiveAlerts := by
  simp only [removeAlert, updateAlertsQueue]
  rw [mem_setSpread, List.mem_append]
  exact Or.inl h

/-- The function `addAlert` writes to `activeAlerts` only. -/
theorem addAlert_other_cells (s : State) (item : AlertItem) :
    (addAlert s item).inactiveAlerts = s.inactiveAlerts
    ∧ (addAlert s item).allAlerts = s.allAlerts := by
  unfold addAlert
  split <;> exact ⟨rfl, rfl⟩

/-- The function `addAlert` keeps every content of `activeAlerts`. -/
theorem mem_contents_addAlert_activeAlerts (s : State) (item : AlertItem) (c : Alert)
    (h : c ∈ contents s.activeAlerts) : c ∈ contents (addAlert s item).activeAlerts := by
  unfold addAlert
  split
  · simp only [contents_append, List.mem_append]
    exact Or.inl h
  · exact h

/-- The initial state is covered: its `allAlerts` is empty. -/
theorem allCovered_initialState : AllCovered initialState := by
  intro c hc
  simp [initialState, contents] at hc

/-- After `removeAlert`, with any index and from any state, the state is
covered. -/
theorem allCovered_removeAlert (s : State) (index : Int) : AllCovered (removeAlert s index) := by
  intro c hc
  rw [mem_contents_removeAlert_allAlerts] at hc
  rw [contents_removeAlert_activeAlerts, mem_contents_removeAlert_inactiveAlerts_iff]
  rcases hc with hc | hc
  · exact Or.inr (Or.inl hc)
  · cases hy : (contents s.activeAlerts)[spliceStart s.activeAlerts.length index]? with
    | none =>
      rw [List.getElem?_eq_none_iff] at hy
      rw [List.eraseIdx_of_length_le hy]
      exact Or.inl hc
    | some y =>
      rcases (mem_iff_getElem_or_mem_eraseIdx _ _ c y hy).mp hc with h | h
      · exact Or.inr (Or.inr (by rw [h]))
      · exact Or.inl h

/-- The function `addAlert` keeps a covered state covered. -/
theorem allCovered_addAlert (s : State) (item : AlertItem) (h : AllCovered s) :
    AllCovered (addAlert s item) := by
  intro c hc
  rw [(addAlert_other_cells s item).2] at hc
  rw [(addAlert_other_cells s item).1]
  rcases h c hc with h1 | h1
  · exact Or.inl (mem_contents_addAlert_activeAlerts s item c h1)
  · exact Or.inr h1

/-- Every call keeps a covered state covered. -/
theorem allCovered_step (s : State) (call : Call) (h : AllCovered s) :
    AllCovered (step s call) := by
  cases call with
  | add item => exact allCovered_addAlert s item h
  | remove index => exact allCovered_removeAlert s index

theorem allCovered_foldl (calls : List Call) (s : State) (h : AllCovered s) :
    AllCovered (calls.foldl step s) := by
  induction calls generalizing s with
  | nil => exact h
  | cons call rest ih => exact ih (step s call) (allCovered_step s call h)

/-- Every reachable state is covered. -/
theorem allCovered_of_reachable (s : State) (h : Reachable s) : AllCovered s := by
  obtain ⟨calls, rfl⟩ := h
  exact allCovered_foldl calls initialState allCovered_initialState

/-! ## The claims -/

/-- C1, evaluated on the code.  After `removeAlert(0)` on the initial state
`allAlerts` holds "alert 1" followed by "alert 2".  The message "alert 1" is
then the message of a member of `allAlerts` that is not the last one, and
`addAlert` of an item with that message is not a no-op: a new "alert 1" is
appended to `activeAlerts`. -/
theorem addAlert_earlier_duplicate_appends :
    Reachable (run [Call.remove 0])
    ∧ contents (run [Call.remove 0]).allAlerts
        = [⟨"alert 1", "error"⟩, ⟨"alert 2", "warning"⟩]
    ∧ (∃ a ∈ (run [Call.remove 0]).allAlerts, a.message = "alert 1")
    ∧ contents (run [Call.remove 0]).activeAlerts = [⟨"alert 2", "warning"⟩]
    ∧ contents (addAlert (run [Call.remove 0]) ⟨"alert 1", "error", none⟩).activeAlerts
        = [⟨"alert 2", "warning"⟩, ⟨"alert 1", "error"⟩] := by
  refine ⟨reachable_run _, by decide, ⟨⟨0, "alert 1", "error"⟩, by decide, rfl⟩, by decide, by decide⟩

/-- C2, evaluated on the code.  In the initial state, which is reachable,
`addAlert(TOAST_1)` followed by `addAlert(TOAST_1)` leaves two copies of
`TOAST_1` in `activeAlerts`, where `addAlert(TOAST_1)` alone leaves one: the
second call is not a no-op. -/
theorem addAlert_twice_appends_twice :
    Reachable initialState
    ∧ contents (addAlert initialState TOAST_1).activeAlerts
        = [⟨"alert 1", "error"⟩, ⟨"alert 2", "warning"⟩, ⟨"one", "error"⟩]
    ∧ contents (addAlert (addAlert initialState TOAST_1) TOAST_1).activeAlerts
        = [⟨"alert 1", "error"⟩, ⟨"alert 2", "warning"⟩, ⟨"one", "error"⟩, ⟨"one", "error"⟩] := by
  refine ⟨reachable_run [], by decide, by decide⟩

/-- C3.  For an index `i` inside `activeAlerts`, the contents of
`activeAlerts` after `removeAlert(i)` are the former contents with the element
at position `i` erased, every other element kept in its former order, and the
length drops by exactly one. -/
theorem removeAlert_activeAlerts (s : State) (i : Nat) (h : i < s.activeAlerts.length) :
    contents (removeAlert s (i : Int)).activeAlerts = (contents s.activeAlerts).eraseIdx i
    ∧ (removeAlert s (i : Int)).activeAlerts.length + 1 = s.activeAlerts.length := by
  rw [removeAlert_activeAlerts_eq s i h]
  constructor
  · rw [contents_eraseIdx, contents_jsonCopy]
  · rw [List.length_eraseIdx, length_jsonCopy]
    simp only [h, if_true]
    omega

/-- The test scenario for C3: with `TOAST_1` and `TOAST_2` active,
`removeAlert(1)` leaves `TOAST_1` alone. -/
theorem removeAlert_activeAlerts_witness :
    1 < twoToasts.activeAlerts.length
    ∧ contents (removeAlert twoToasts 1).activeAlerts = [⟨"one", "error"⟩]
    ∧ (removeAlert twoToasts 1).activeAlerts.length + 1 = 2 :=
  ⟨by decide, removeAlert_activeAlerts twoToasts 1 (by decide)⟩

/-- C4.  For an index `i` inside `activeAlerts`, where the object `a` is, after
`removeAlert(i)` the content of `a` is a member of `inactiveAlerts`, every
content that was in `inactiveAlerts` is still in it, and nothing else has been
added to `inactiveAlerts`. -/
theorem removeAlert_inactiveAlerts (s : State) (i : Nat) (a : AlertObj)
    (h : s.activeAlerts[i]? = some a) :
    a.content ∈ contents (removeAlert s (i : Int)).inactiveAlerts
    ∧ (∀ c ∈ contents s.inactiveAlerts, c ∈ contents (removeAlert s (i : Int)).inactiveAlerts)
    ∧ (∀ c ∈ contents (removeAlert s (i : Int)).inactiveAlerts,
        c ∈ contents s.inactiveAlerts ∨ c = a.content) := by
  have hin := mem_contents_removeAlert_inactiveAlerts s i a h
  exact ⟨(hin _).mpr (Or.inr rfl), fun c hcm => (hin c).mpr (Or.inl hcm), fun c hcm => (hin c).mp hcm⟩

/-- The test scenario for C4: with `TOAST_1` and `TOAST_2` active and nothing
inactive, after `removeAlert(1)` the content of `TOAST_2` is in
`inactiveAlerts`, and nothing else is. -/
theorem removeAlert_inactiveAlerts_witness :
    (⟨"two", "error"⟩ : Alert) ∈ contents (removeAlert twoToasts 1).inactiveAlerts
    ∧ (∀ c ∈ contents twoToasts.inactiveAlerts, c ∈ contents (removeAlert twoToasts 1).inactiveAlerts)
    ∧ (∀ c ∈ contents (removeAlert twoToasts 1).inactiveAlerts,
        c ∈ contents twoToasts.inactiveAlerts ∨ c = ⟨"two", "error"⟩) :=
  removeAlert_inactiveAlerts twoToasts 1 ⟨1, "two", "error"⟩ (by decide)

/-- C5.  For an index `i` inside `activeAlerts`, after `removeAlert(i)` the
contents of `allAlerts` are exactly the contents of the union
`[...new Set([...inactiveAlerts, ...activeAlerts])]` of the new
`inactiveAlerts` and the new `activeAlerts`, although the code computes
`allAlerts` from the cells as they were before the call. -/
theorem removeAlert_allAlerts (s : State) (i : Nat) (h : i < s.activeAlerts.length)
    (c : Alert) :
    c ∈ contents (removeAlert s (i : Int)).allAlerts
      ↔ c ∈ contents (setSpread ((removeAlert s (i : Int)).inactiveAlerts
            ++ (removeAlert s (i : Int)).activeAlerts)) := by
  have ha : s.activeAlerts[i]? = some (s.activeAlerts[i]) := List.getElem?_eq_getElem h
  have hca : (contents s.activeAlerts)[i]? = some (s.activeAlerts[i]).content := by
    simp [contents, ha]
  rw [mem_contents_removeAlert_allAlerts, mem_contents_setSpread, contents_append,
    List.mem_append, mem_contents_removeAlert_inactiveAlerts s i _ ha,
    removeAlert_activeAlerts_eq s i h, contents_eraseIdx, contents_jsonCopy,
    mem_iff_getElem_or_mem_eraseIdx (contents s.activeAlerts) i c _ hca]
  tauto

/-- The test scenario for C5: with `TOAST_1` and `TOAST_2` active, after
`removeAlert(1)` the content of `TOAST_2`, now inactive, is in `allAlerts`. -/
theorem removeAlert_allAlerts_witness :
    1 < twoToasts.activeAlerts.length
    ∧ ((⟨"two", "error"⟩ : Alert) ∈ contents (removeAlert twoToasts 1).allAlerts
      ↔ (⟨"two", "error"⟩ : Alert) ∈ contents (setSpread ((removeAlert twoToasts 1).inactiveAlerts
            ++ (removeAlert twoToasts 1).activeAlerts))) :=
  ⟨by decide, removeAlert_allAlerts twoToasts 1 (by decide) ⟨"two", "error"⟩⟩

/-- C6.  When no member of `allAlerts` has the message of the item, `addAlert`
appends a new object with the message and the severity of the item as the last
element of `activeAlerts`; the former elements stay in front of it, unchanged
and in the same order. -/
theorem addAlert_appends_new_message (s : State) (item : AlertItem)
    (h : ∀ a ∈ s.allAlerts, a.message ≠ item.message) :
    (addAlert s item).activeAlerts
        = s.activeAlerts ++ [⟨s.freshRef, item.message, item.severity⟩]
    ∧ contents (addAlert s item).activeAlerts
        = contents s.activeAlerts ++ [⟨item.message, item.severity⟩] := by
  have ht := newAlert_truthy_of_forall_ne s.allAlerts item.message h
  rw [addAlert_of_truthy s item ht]
  exact ⟨rfl, by simp [contents, AlertObj.content]⟩

/-- The test scenario for C6: on the empty queue `addAlert(TOAST_1)` makes
`activeAlerts` the one alert of `TOAST_1`. -/
theorem addAlert_appends_new_message_witness :
    (∀ a ∈ emptyQueue.allAlerts, a.message ≠ TOAST_1.message)
    ∧ (addAlert emptyQueue TOAST_1).activeAlerts = [⟨0, "one", "error"⟩]
    ∧ contents (addAlert emptyQueue TOAST_1).activeAlerts = [⟨"one", "error"⟩] :=
  ⟨by decide, addAlert_appends_new_message emptyQueue TOAST_1 (by decide)⟩

/-- C7, evaluated on the code.  In the initial state `allAlerts` is empty, so
no member of it has the message of `TOAST_1`; `addAlert(TOAST_1)` accepts the
item into `activeAlerts`, and `allAlerts` is still empty afterwards: the item
is not a member of it. -/
theorem addAlert_does_not_record_in_allAlerts :
    (∀ a ∈ initialState.allAlerts, a.message ≠ TOAST_1.message)
    ∧ (⟨"one", "error"⟩ : Alert) ∈ contents (addAlert initialState TOAST_1).activeAlerts
    ∧ (addAlert initialState TOAST_1).allAlerts = []
    ∧ (⟨"one", "error"⟩ : Alert) ∉ contents (addAlert initialState TOAST_1).allAlerts := by
  refine ⟨by decide, by decide, by decide, by decide⟩

/-- C8, evaluated on the code.  The state the provider is created with has two
alerts in `activeAlerts`; only `inactiveAlerts` and `allAlerts` are empty. -/
theorem initialState_activeAlerts_not_empty :
    contents initialState.activeAlerts = [⟨"alert 1", "error"⟩, ⟨"alert 2", "warning"⟩]
    ∧ initialState.activeAlerts ≠ []
    ∧ initialState.inactiveAlerts = []
    ∧ initialState.allAlerts = [] := by
  refine ⟨by decide, by decide, by decide, by decide⟩

/-- C9, evaluated on the code.  Two reachable states in which one content is
both in `activeAlerts` and in `inactiveAlerts`.  After `removeAlert(0)` the
alert "alert 1" is inactive, and `addAlert` of the same alert puts it into
`activeAlerts` again.  After `addAlert(TOAST_1)` twice and `removeAlert(2)`
one `TOAST_1` is inactive and the other is still active. -/
theorem active_and_inactive_overlap :
    Reachable (run [Call.remove 0, Call.add ⟨"alert 1", "error", none⟩])
    ∧ contents (run [Call.remove 0]).inactiveAlerts = [⟨"alert 1", "error"⟩]
    ∧ contents (run [Call.remove 0, Call.add ⟨"alert 1", "error", none⟩]).activeAlerts
        = [⟨"alert 2", "warning"⟩, ⟨"alert 1", "error"⟩]
    ∧ contents (run [Call.remove 0, Call.add ⟨"alert 1", "error", none⟩]).inactiveAlerts
        = [⟨"alert 1", "error"⟩]
    ∧ Reachable (run [Call.add TOAST_1, Call.add TOAST_1, Call.remove 2])
    ∧ contents (run [Call.add TOAST_1, Call.add TOAST_1, Call.remove 2]).activeAlerts
        = [⟨"alert 1", "error"⟩, ⟨"alert 2", "warning"⟩, ⟨"one", "error"⟩]
    ∧ contents (run [Call.add TOAST_1, Call.add TOAST_1, Call.remove 2]).inactiveAlerts
        = [⟨"one", "error"⟩] := by
  refine ⟨reachable_run _, by decide, by decide, by decide, reachable_run _, by decide, by decide⟩

/-- C10, evaluated on the code.  After a single `addAlert` of an item with the
message "alert 1" the reachable state has that message at positions 0 and 2
of `activeAlerts`. -/
theorem activeAlerts_repeats_message :
    Reachable (run [Call.add ⟨"alert 1", "info", none⟩])
    ∧ (run [Call.add ⟨"alert 1", "info", none⟩]).activeAlerts.map AlertObj.message
        = ["alert 1", "alert 2", "alert 1"]
    ∧ ¬ ((run [Call.add ⟨"alert 1", "info", none⟩]).activeAlerts.map AlertObj.message).Nodup := by
  refine ⟨reachable_run _, by decide, by decide⟩

/-- C11.  In a reachable state, after one call of `addAlert` or `removeAlert`,
with any item or index, every content that was in `allAlerts` is still in
`allAlerts`. -/
theorem allAlerts_keeps_members (s : State) (h : Reachable s) (call : Call) (c : Alert)
    (hc : c ∈ contents s.allAlerts) : c ∈ contents (step s call).allAlerts := by
  cases call with
  | add item =>
    simp only [step]
    rw [(addAlert_other_cells s item).2]
    exact hc
  | remove index =>
    simp only [step]
    rw [mem_contents_removeAlert_allAlerts]
    rcases allCovered_of_reachable s h c hc with h1 | h1
    · exact Or.inr h1
    · exact Or.inl h1

/-- An instance of C11: after `removeAlert(0)` on the initial state "alert 1"
is in `allAlerts`, and it still is after `removeAlert(0)` is called again. -/
theorem allAlerts_keeps_members_witness :
    (⟨"alert 1", "error"⟩ : Alert) ∈ contents (run [Call.remove 0]).allAlerts
    ∧ (⟨"alert 1", "error"⟩ : Alert)
        ∈ contents (step (run [Call.remove 0]) (Call.remove 0)).allAlerts :=
  ⟨by decide,
   allAlerts_keeps_members (run [Call.remove 0]) (reachable_run _) (Call.remove 0)
     ⟨"alert 1", "error"⟩ (by decide)⟩

/-- C12.  In every state, after one call of `addAlert` or `removeAlert`, with
any item or index, every object that was in `inactiveAlerts` is still in
`inactiveAlerts`, and so is its content. -/
theorem inactiveAlerts_keeps_members (s : State) (call : Call) (o : AlertObj)
    (h : o ∈ s.inactiveAlerts) :
    o ∈ (step s call).inactiveAlerts
    ∧ o.content ∈ contents (step s call).inactiveAlerts := by
  have hm : o ∈ (step s call).inactiveAlerts := by
    cases call with
    | add item =>
      simp only [step]
      rw [(addAlert_other_cells s item).1]
      exact h
    | remove index => exact mem_removeAlert_inactiveAlerts_of_mem s index o h
  exact ⟨hm, List.mem_map_of_mem _ hm⟩

/-- An instance of C12: the inactive "alert 1" of the state after
`removeAlert(0)` stays inactive when `removeAlert(-1)` is called. -/
theorem inactiveAlerts_keeps_members_witness :
    (⟨2, "alert 1", "error"⟩ : AlertObj) ∈ (run [Call.remove 0]).inactiveAlerts
    ∧ (⟨2, "alert 1", "error"⟩ : AlertObj)
        ∈ (step (run [Call.remove 0]) (Call.remove (-1))).inactiveAlerts
    ∧ (⟨"alert 1", "error"⟩ : Alert)
        ∈ contents (step (run [Call.remove 0]) (Call.remove (-1))).inactiveAlerts :=
  ⟨by decide,
   inactiveAlerts_keeps_members (run [Call.remove 0]) (Call.remove (-1))
     ⟨2, "alert 1", "error"⟩ (by decide)⟩

/-- C13 as stated fails.  In the initial state the index -1 is negative, and
`removeAlert(-1)` moves the last alert from `activeAlerts` to
`inactiveAlerts`; the index 2 is the length of `activeAlerts`, and
`removeAlert(2)` changes `allAlerts` from empty to the two active alerts. -/
theorem removeAlert_outside_bounds_not_noop :
    ((-1 : Int) < 0
      ∧ contents initialState.activeAlerts = [⟨"alert 1", "error"⟩, ⟨"alert 2", "warning"⟩]
      ∧ contents (removeAlert initialState (-1)).activeAlerts = [⟨"alert 1", "error"⟩]
      ∧ contents initialState.inactiveAlerts = []
      ∧ contents (removeAlert initialState (-1)).inactiveAlerts = [⟨"alert 2", "warning"⟩])
    ∧ ((initialState.activeAlerts.length : Int) ≤ 2
      ∧ contents initialState.allAlerts = []
      ∧ contents (removeAlert initialState 2).allAlerts
          = [⟨"alert 1", "error"⟩, ⟨"alert 2", "warning"⟩]) := by
  refine ⟨⟨by decide, by decide, by decide, by decide, by decide⟩, by decide, by decide, by decide⟩

/-- C13 as amended.  With an index at or above the length of `activeAlerts`,
`removeAlert` removes nothing: the contents of `activeAlerts` are unchanged
and `inactiveAlerts` is `[...new Set(inactiveAlerts)]`.  With a negative index
the `splice` counts from the end: the element at position
`max(length + index, 0)` leaves `activeAlerts` and its content joins
`inactiveAlerts`, if there is such an element.  For every index `allAlerts`
becomes `[...new Set([...inactiveAlerts, ...activeAlerts])]` of the cells
before the call. -/
theorem removeAlert_outside_bounds (s : State) (index : Int) :
    ((s.activeAlerts.length : Int) ≤ index →
        contents (removeAlert s index).activeAlerts = contents s.activeAlerts
        ∧ (removeAlert s index).inactiveAlerts = setSpread s.inactiveAlerts)
    ∧ (index < 0 →
        contents (removeAlert s index).activeAlerts
          = (contents s.activeAlerts).eraseIdx ((s.activeAlerts.length : Int) + index).toNat
        ∧ ∀ c, c ∈ contents (removeAlert s index).inactiveAlerts
            ↔ c ∈ contents s.inactiveAlerts
              ∨ (contents s.activeAlerts)[((s.activeAlerts.length : Int) + index).toNat]? = some c)
    ∧ (removeAlert s index).allAlerts = setSpread (s.inactiveAlerts ++ s.activeAlerts) := by
  refine ⟨fun h => ⟨?_, ?_⟩, fun h => ⟨?_, fun c => ?_⟩, rfl⟩
  · have hl : (contents s.activeAlerts).length ≤ s.activeAlerts.length := by
      simp [contents]
    rw [contents_removeAlert_activeAlerts, spliceStart_of_length_le _ _ h,
      List.eraseIdx_of_length_le hl]
  · have hd : (jsonCopy s.freshRef s.activeAlerts).drop s.activeAlerts.length = [] :=
      List.drop_eq_nil_of_le (by rw [length_jsonCopy])
    simp only [removeAlert, updateAlertsQueue, splice1_eq, length_jsonCopy,
      spliceStart_of_length_le _ _ h, hd, List.take_nil, List.append_nil]
  · rw [contents_removeAlert_activeAlerts, spliceStart_of_neg _ _ h]
  · rw [mem_contents_removeAlert_inactiveAlerts_iff, spliceStart_of_neg _ _ h]

/-- Instances of C13 as amended, on `TOAST_1` and `TOAST_2` active:
`removeAlert(2)` keeps both active and nothing inactive, `removeAlert(-1)`
keeps `TOAST_1` active. -/
theorem removeAlert_outside_bounds_witness :
    ((twoToasts.activeAlerts.length : Int) ≤ 2
      ∧ contents (removeAlert twoToasts 2).activeAlerts = contents twoToasts.activeAlerts
      ∧ (removeAlert twoToasts 2).inactiveAlerts = setSpread twoToasts.inactiveAlerts)
    ∧ ((-1 : Int) < 0
      ∧ contents (removeAlert twoToasts (-1)).activeAlerts
          = (contents twoToasts.activeAlerts).eraseIdx 1) :=
  ⟨⟨by decide, (removeAlert_outside_bounds twoToasts 2).1 (by decide)⟩,
   ⟨by decide, ((removeAlert_outside_bounds twoToasts (-1)).2.1 (by decide)).1⟩⟩

/-- C14.  The function `addAlert` is determined by the last element of
`allAlerts`: its new `activeAlerts` is the old one followed by
`{ message, severity }` when `allAlerts` is empty or its last element has
another message, and the old one otherwise; `inactiveAlerts` and `allAlerts`
are unchanged; and the `errorId` of the item plays no part. -/
theorem addAlert_determined_by_last (s : State) (item : AlertItem) :
    (addAlert s item).activeAlerts = activeAlertsByLast s item.message item.severity
    ∧ (addAlert s item).inactiveAlerts = s.inactiveAlerts
    ∧ (addAlert s item).allAlerts = s.allAlerts
    ∧ ∀ errorId, addAlert s ⟨item.message, item.severity, errorId⟩ = addAlert s item := by
  refine ⟨?_, (addAlert_other_cells s item).1, (addAlert_other_cells s item).2, fun _ => rfl⟩
  obtain ⟨active, inactive, all⟩ := s
  rcases List.eq_nil_or_concat all with rfl | ⟨ys, a, rfl⟩
  · rfl
  · simp only [addAlert, activeAlertsByLast, List.concat_eq_append, newAlert_append_singleton,
      List.getLast?_concat, ReduceAcc.truthy]
    by_cases hm : a.message = item.message
    · simp [hm]
    · simp [hm]

/-- C15.  In every reachable state every content of `allAlerts` is a content
of `activeAlerts` or of `inactiveAlerts`. -/
theorem allAlerts_subset_active_or_inactive (s : State) (h : Reachable s) (c : Alert)
    (hc : c ∈ contents s.allAlerts) :
    c ∈ contents s.activeAlerts ∨ c ∈ contents s.inactiveAlerts :=
  allCovered_of_reachable s h c hc

/-- An instance of C15: after `removeAlert(0)` on the initial state "alert 1",
a member of `allAlerts`, is in `activeAlerts` or in `inactiveAlerts`. -/
theorem allAlerts_subset_active_or_inactive_witness :
    (⟨"alert 1", "error"⟩ : Alert) ∈ contents (run [Call.remove 0]).allAlerts
    ∧ ((⟨"alert 1", "error"⟩ : Alert) ∈ contents (run [Call.remove 0]).activeAlerts
      ∨ (⟨"alert 1", "error"⟩ : Alert) ∈ contents (run [Call.remove 0]).inactiveAlerts) :=
  ⟨by decide,
   allAlerts_subset_active_or_inactive (run [Call.remove 0]) (reachable_run _)
     ⟨"alert 1", "error"⟩ (by decide)⟩

end AlertProvider
